import Mathlib

/-!
Shallow embedding of the ENU conversion module of pymap3d (src/pymap3d/enu.py)
over the real numbers, together with theorems settling the spec's claims.

Python's `math.atan2 y x` is embedded as `Complex.arg ⟨x, y⟩`: both have range
(-π, π], agree on every axis (including `atan2 0 0 = 0`), and satisfy the same
sin/cos characterisation.  Python's float `%` with a positive divisor is
embedded as `a - b * ⌊a / b⌋`.  Fallible code (`raise ValueError`) is embedded
with `Except String`.
-/

noncomputable section

namespace Pymap3d

/-- Real embedding of `math.hypot x y = sqrt (x² + y²)`. -/
def hypot (x y : ℝ) : ℝ := Real.sqrt (x ^ 2 + y ^ 2)

/-- Real embedding of `math.atan2 y x` (note the argument order: y first). -/
def atan2 (y x : ℝ) : ℝ := Complex.arg ⟨x, y⟩

/-- Real embedding of Python's float `%` for a positive modulus:
`a % b = a - b * floor (a / b)`. -/
def pymod (a b : ℝ) : ℝ := a - b * ⌊a / b⌋

/-- Source: `tau = 2 * pi`. -/
def tau : ℝ := 2 * Real.pi

/-- Real embedding of `math.radians x = x * pi / 180`. -/
def radians (x : ℝ) : ℝ := x * Real.pi / 180

/-- Real embedding of `math.degrees x = x * 180 / pi`. -/
def degrees (x : ℝ) : ℝ := x * 180 / Real.pi

/-- The snap-to-zero step at the head of `enu2aer_point`:
`if abs x < 1e-3: x = 0.0`. -/
def snap (x : ℝ) : ℝ := if |x| < 1e-3 then 0 else x

/-- Embedding of `enu2aer_point` from src/pymap3d/enu.py: snap each component
to zero below 1e-3, then `r = hypot e n`, `slantRange = hypot r u`,
`elev = atan2 u r`, `az = atan2 e n % tau`, converting the two angles to
degrees when `deg` is true. -/
def enu2aer_point (e n u : ℝ) (deg : Bool) : ℝ × ℝ × ℝ :=
  let e := snap e
  let n := snap n
  let u := snap u
  let r := hypot e n
  let slantRange := hypot r u
  let elev := atan2 u r
  let az := pymod (atan2 e n) tau
  if deg then (degrees az, degrees elev, slantRange) else (az, elev, slantRange)

/-- Embedding of `aer2enu_point` from src/pymap3d/enu.py: convert the angles
from degrees when `deg` is true, raise `ValueError` when `srange < 0`,
otherwise return `(r sin az, r cos az, srange sin el)` with
`r = srange * cos el`. -/
def aer2enu_point (az el srange : ℝ) (deg : Bool) : Except String (ℝ × ℝ × ℝ) :=
  let el := if deg then radians el else el
  let az := if deg then radians az else az
  if srange < 0 then Except.error "Slant range  [0, Infinity)"
  else
    let r := srange * Real.cos el
    Except.ok (r * Real.sin az, r * Real.cos az, srange * Real.sin el)

/-- Embedding of the vectorized `aer2enu` wrapper: `numpy.vectorize` applies
`aer2enu_point` to each element of the broadcast inputs in order, and the
first element that raises aborts the whole call. -/
def aer2enu_vec (inputs : List (ℝ × ℝ × ℝ)) (deg : Bool) :
    Except String (List (ℝ × ℝ × ℝ)) :=
  match inputs with
  | [] => Except.ok []
  | t :: ts => do
      let p ← aer2enu_point t.1 t.2.1 t.2.2 deg
      let ps ← aer2enu_vec ts deg
      Except.ok (p :: ps)

/-- Modelled from the spec: the reference ellipsoid of src/pymap3d/ellipsoid.py
is not under src/; the spec describes it as an opaque immutable value object
carrying semi-major axis and flattening, consumed as-is by the collaborators. -/
structure Ellipsoid where
  semimajor : ℝ
  flattening : ℝ

/-- Embedding of `geodetic2enu` from src/pymap3d/enu.py.  The collaborators
`geodetic2ecef` and `uvw2enu` live in src/pymap3d/ecef.py, which is not under
src/; following the spec they are black boxes, so they are taken as function
parameters with exactly the argument lists the source passes them.  Note the
type of `u2e`: it receives the three ECEF differences, `lat0`, `lon0` and
`deg` only — there is no slot for `h0`. -/
def geodetic2enu
    (g2e : ℝ → ℝ → ℝ → Option Ellipsoid → Bool → ℝ × ℝ × ℝ)
    (u2e : ℝ → ℝ → ℝ → ℝ → ℝ → Bool → ℝ × ℝ × ℝ)
    (lat lon h lat0 lon0 h0 : ℝ) (ell : Option Ellipsoid) (deg : Bool) :
    ℝ × ℝ × ℝ :=
  let p1 := g2e lat lon h ell deg
  let p2 := g2e lat0 lon0 h0 ell deg
  u2e (p1.1 - p2.1) (p1.2.1 - p2.2.1) (p1.2.2 - p2.2.2) lat0 lon0 deg

/-- Componentwise approximate equality of two triples at relative tolerance
`tol`, scaled by the 1-norm of the first triple (a generous reading of
"within tol relative"). -/
def tripleApproxRel (p q : ℝ × ℝ × ℝ) (tol : ℝ) : Prop :=
  |p.1 - q.1| ≤ tol * (|p.1| + |p.2.1| + |p.2.2|) ∧
  |p.2.1 - q.2.1| ≤ tol * (|p.1| + |p.2.1| + |p.2.2|) ∧
  |p.2.2 - q.2.2| ≤ tol * (|p.1| + |p.2.1| + |p.2.2|)

/-! ### Helper lemmas about the primitives -/

lemma hypot_nonneg (x y : ℝ) : 0 ≤ hypot x y := Real.sqrt_nonneg _

lemma hypot_eq_zero_iff {x y : ℝ} : hypot x y = 0 ↔ x = 0 ∧ y = 0 := by
  unfold hypot
  rw [Real.sqrt_eq_zero (by positivity)]
  constructor
  · intro h
    constructor <;> nlinarith [sq_nonneg x, sq_nonneg y]
  · rintro ⟨rfl, rfl⟩; norm_num

lemma hypot_comm (x y : ℝ) : hypot x y = hypot y x := by
  unfold hypot; ring_nf

lemma abs_mk (x y : ℝ) : Complex.abs ⟨x, y⟩ = hypot x y := by
  rw [Complex.abs_apply, Complex.normSq_mk, hypot]
  ring_nf

lemma sin_atan2 (y x : ℝ) : Real.sin (atan2 y x) = y / hypot x y := by
  unfold atan2
  rw [Complex.sin_arg, abs_mk]

lemma cos_atan2 {y x : ℝ} (h : hypot x y ≠ 0) :
    Real.cos (atan2 y x) = x / hypot x y := by
  unfold atan2
  rw [Complex.cos_arg, abs_mk]
  intro hz
  apply h
  rw [Complex.ext_iff] at hz
  simp only [Complex.zero_re, Complex.zero_im] at hz
  rw [hz.1, hz.2, hypot]
  simp

lemma tau_pos : 0 < tau := by
  unfold tau; positivity

lemma pymod_nonneg (a : ℝ) : 0 ≤ pymod a tau := by
  unfold pymod
  have ht := tau_pos
  have h := Int.floor_le (a / tau)
  have h2 : (⌊a / tau⌋ : ℝ) * tau ≤ (a / tau) * tau :=
    mul_le_mul_of_nonneg_right h ht.le
  rw [div_mul_cancel₀ a ht.ne'] at h2
  linarith

lemma pymod_lt (a : ℝ) : pymod a tau < tau := by
  unfold pymod
  have ht := tau_pos
  have h := Int.lt_floor_add_one (a / tau)
  have h2 : (a / tau) * tau < ((⌊a / tau⌋ : ℝ) + 1) * tau :=
    mul_lt_mul_of_pos_right h ht
  rw [div_mul_cancel₀ a ht.ne'] at h2
  nlinarith

lemma sin_pymod_tau (a : ℝ) : Real.sin (pymod a tau) = Real.sin a := by
  unfold pymod tau
  have : a - 2 * Real.pi * ⌊a / (2 * Real.pi)⌋ =
      a + (-⌊a / (2 * Real.pi)⌋ : ℤ) * (2 * Real.pi) := by push_cast; ring
  rw [this, Real.sin_add_int_mul_two_pi]

lemma cos_pymod_tau (a : ℝ) : Real.cos (pymod a tau) = Real.cos a := by
  unfold pymod tau
  have : a - 2 * Real.pi * ⌊a / (2 * Real.pi)⌋ =
      a + (-⌊a / (2 * Real.pi)⌋ : ℤ) * (2 * Real.pi) := by push_cast; ring
  rw [this, Real.cos_add_int_mul_two_pi]

lemma snap_idem (x : ℝ) : snap (snap x) = snap x := by
  unfold snap
  by_cases h : |x| < 1e-3 <;> simp [h]

lemma radians_degrees (x : ℝ) : radians (degrees x) = x := by
  unfold radians degrees
  field_simp

lemma snap_eq_self {x : ℝ} (h : 1e-3 ≤ |x|) : snap x = x :=
  if_neg (not_lt.mpr h)

lemma snap_eq_zero {x : ℝ} (h : |x| < 1e-3) : snap x = 0 :=
  if_pos h

lemma hypot_eval {a b c : ℝ} (hc : 0 ≤ c) (h : a ^ 2 + b ^ 2 = c ^ 2) :
    hypot a b = c := by
  unfold hypot
  rw [h]
  exact Real.sqrt_sq hc

lemma atan2_zero_of_nonneg {x : ℝ} (h : 0 ≤ x) : atan2 0 x = 0 := by
  unfold atan2
  have hx : (⟨x, 0⟩ : ℂ) = (x : ℂ) := rfl
  rw [hx]
  exact Complex.arg_ofReal_of_nonneg h

lemma atan2_of_pos_zero {y : ℝ} (h : 0 < y) : atan2 y 0 = Real.pi / 2 := by
  unfold atan2
  exact Complex.arg_eq_pi_div_two_iff.mpr ⟨rfl, h⟩

lemma atan2_of_neg_zero {y : ℝ} (h : y < 0) : atan2 y 0 = -(Real.pi / 2) := by
  unfold atan2
  exact Complex.arg_eq_neg_pi_div_two_iff.mpr ⟨rfl, h⟩

lemma pymod_zero : pymod 0 tau = 0 := by
  unfold pymod
  simp

lemma degrees_zero : degrees 0 = 0 := by
  unfold degrees; simp

lemma degrees_pi_div_two : degrees (Real.pi / 2) = 90 := by
  unfold degrees
  field_simp
  ring

lemma degrees_neg_pi_div_two : degrees (-(Real.pi / 2)) = -90 := by
  unfold degrees
  field_simp
  ring

/-- Switching the unit flag of `aer2enu_point` to true only converts the
incoming angles from degrees. -/
lemma aer2enu_point_true_eq (az el s : ℝ) :
    aer2enu_point az el s true = aer2enu_point (radians az) (radians el) s false := by
  simp [aer2enu_point]

/-- Switching the unit flag of `enu2aer_point` to true only converts the two
outgoing angles to degrees. -/
lemma enu2aer_point_true_eq (e n u : ℝ) :
    enu2aer_point e n u true =
      (degrees (enu2aer_point e n u false).1,
       degrees (enu2aer_point e n u false).2.1,
       (enu2aer_point e n u false).2.2) := by
  simp [enu2aer_point]

/-- Core exact round trip in radians, with no snapping: feeding the raw
azimuth, elevation and slant range formulas of `enu2aer_point` into
`aer2enu_point` recovers the triple exactly, for every real triple. -/
lemma roundtrip_core (e n u : ℝ) :
    aer2enu_point (pymod (atan2 e n) tau) (atan2 u (hypot e n))
      (hypot (hypot e n) u) false = Except.ok (e, n, u) := by
  set r := hypot e n with hrdef
  set s := hypot r u with hsdef
  have hr0 : 0 ≤ r := hypot_nonneg e n
  have hs0 : 0 ≤ s := hypot_nonneg r u
  have hcos : s * Real.cos (atan2 u r) = r := by
    by_cases hs' : s = 0
    · have h0 := hypot_eq_zero_iff.mp (hsdef ▸ hs')
      rw [hs', h0.1, zero_mul]
    · rw [cos_atan2 (by rw [← hsdef]; exact hs')]
      rw [← hsdef]
      field_simp
  have hu' : s * Real.sin (atan2 u r) = u := by
    rw [sin_atan2, ← hsdef]
    by_cases hs' : s = 0
    · have h0 := hypot_eq_zero_iff.mp (hsdef ▸ hs')
      rw [hs', h0.2, zero_mul]
    · field_simp
  have he' : r * Real.sin (pymod (atan2 e n) tau) = e := by
    rw [sin_pymod_tau, sin_atan2, hypot_comm n e, ← hrdef]
    by_cases hr' : r = 0
    · have h0 := hypot_eq_zero_iff.mp (hrdef ▸ hr')
      rw [hr', h0.1]
      simp
    · field_simp
  have hn' : r * Real.cos (pymod (atan2 e n) tau) = n := by
    rw [cos_pymod_tau]
    by_cases hr' : r = 0
    · have h0 := hypot_eq_zero_iff.mp (hrdef ▸ hr')
      rw [hr', h0.2, zero_mul]
    · rw [cos_atan2 (by rw [hypot_comm n e, ← hrdef]; exact hr'),
        hypot_comm n e, ← hrdef]
      field_simp
  unfold aer2enu_point
  rw [if_neg (not_lt.mpr hs0)]
  simp only [Bool.false_eq_true, if_false, Except.ok.injEq, Prod.mk.injEq]
  refine ⟨?_, ?_, hu'⟩
  · rw [hcos]; exact he'
  · rw [hcos]; exact hn'

lemma degrees_nonneg {x : ℝ} (h : 0 ≤ x) : 0 ≤ degrees x := by
  unfold degrees
  have := Real.pi_pos
  positivity

lemma degrees_lt_360 {x : ℝ} (h : x < tau) : degrees x < 360 := by
  unfold degrees
  unfold tau at h
  have hp := Real.pi_pos
  rw [div_lt_iff hp]
  nlinarith

lemma degrees_le_degrees {x y : ℝ} (h : x ≤ y) : degrees x ≤ degrees y := by
  unfold degrees
  have hp := Real.pi_pos
  rw [div_le_div_iff hp hp]
  nlinarith

lemma abs_atan2_le {y x : ℝ} (h : 0 ≤ x) : |atan2 y x| ≤ Real.pi / 2 := by
  unfold atan2
  exact Complex.abs_arg_le_pi_div_two_iff.mpr h

lemma aer2enu_point_neg (az el s : ℝ) (deg : Bool) (h : s < 0) :
    aer2enu_point az el s deg = Except.error "Slant range  [0, Infinity)" := by
  simp [aer2enu_point, h]

lemma aer2enu_point_nonneg_ok (az el s : ℝ) (deg : Bool) (h : ¬s < 0) :
    aer2enu_point az el s deg =
      Except.ok
        (s * Real.cos (if deg then radians el else el) *
            Real.sin (if deg then radians az else az),
         s * Real.cos (if deg then radians el else el) *
            Real.cos (if deg then radians az else az),
         s * Real.sin (if deg then radians el else el)) := by
  simp [aer2enu_point, h]

lemma aer2enu_vec_error (ts : List (ℝ × ℝ × ℝ)) (deg : Bool)
    (h : ∃ t ∈ ts, t.2.2 < 0) :
    aer2enu_vec ts deg = Except.error "Slant range  [0, Infinity)" := by
  induction ts with
  | nil => simp at h
  | cons t ts ih =>
    rcases h with ⟨t', ht', hneg⟩
    simp only [List.mem_cons] at ht'
    by_cases hh : t.2.2 < 0
    · unfold aer2enu_vec
      rw [aer2enu_point_neg _ _ _ _ hh]
      rfl
    · have ht'' : t' ∈ ts := by
        rcases ht' with rfl | h2
        · exact absurd hneg hh
        · exact h2
      unfold aer2enu_vec
      rw [aer2enu_point_nonneg_ok t.1 t.2.1 t.2.2 deg hh, ih ⟨t', ht'', hneg⟩]
      rfl

lemma aer_norm (a e s : ℝ) (hs : 0 ≤ s) :
    hypot (hypot (s * Real.cos e * Real.sin a) (s * Real.cos e * Real.cos a))
      (s * Real.sin e) = s := by
  have h1 : hypot (s * Real.cos e * Real.sin a) (s * Real.cos e * Real.cos a) =
      |s * Real.cos e| := by
    unfold hypot
    have hq : (s * Real.cos e * Real.sin a) ^ 2 +
        (s * Real.cos e * Real.cos a) ^ 2 = (s * Real.cos e) ^ 2 := by
      have := Real.sin_sq_add_cos_sq a
      nlinarith
    rw [hq, Real.sqrt_sq_eq_abs]
  rw [h1]
  unfold hypot
  have hq : |s * Real.cos e| ^ 2 + (s * Real.sin e) ^ 2 = s ^ 2 := by
    rw [sq_abs]
    have := Real.sin_sq_add_cos_sq e
    nlinarith
  rw [hq]
  exact Real.sqrt_sq hs

/-! ### Claim theorems -/

/-- C5: `enu2aer_point` applies the snap-to-zero step before everything else,
so its value at any triple equals its value at the componentwise snapped
triple, in either unit mode. -/
theorem enu2aer_snap_invariant (e n u : ℝ) (deg : Bool) :
    enu2aer_point e n u deg = enu2aer_point (snap e) (snap n) (snap u) deg := by
  simp only [enu2aer_point, snap_idem]

/-- C9: `enu2aer_point` is total on the reals: it always returns a triple
(the embedding has no error case because the source raises nothing), and the
returned slant range is nonnegative in either unit mode. -/
theorem enu2aer_total_srange_nonneg (e n u : ℝ) (deg : Bool) :
    ∃ az el s : ℝ, enu2aer_point e n u deg = (az, el, s) ∧ 0 ≤ s := by
  refine ⟨(enu2aer_point e n u deg).1, (enu2aer_point e n u deg).2.1,
    (enu2aer_point e n u deg).2.2, rfl, ?_⟩
  cases deg <;> simp [enu2aer_point, hypot_nonneg]

/-- C3: the azimuth returned by `enu2aer_point` lies in [0, 2π) in radian
mode and in [0, 360) in degree mode, for every input triple. -/
theorem enu2aer_azimuth_normalized (e n u : ℝ) :
    (0 ≤ (enu2aer_point e n u false).1 ∧ (enu2aer_point e n u false).1 < tau) ∧
    (0 ≤ (enu2aer_point e n u true).1 ∧ (enu2aer_point e n u true).1 < 360) := by
  have h1 : (enu2aer_point e n u false).1 = pymod (atan2 (snap e) (snap n)) tau := by
    simp [enu2aer_point]
  have h2 : (enu2aer_point e n u true).1 =
      degrees (pymod (atan2 (snap e) (snap n)) tau) := by
    simp [enu2aer_point]
  refine ⟨⟨?_, ?_⟩, ⟨?_, ?_⟩⟩
  · rw [h1]; exact pymod_nonneg _
  · rw [h1]; exact pymod_lt _
  · rw [h2]; exact degrees_nonneg (pymod_nonneg _)
  · rw [h2]; exact degrees_lt_360 (pymod_lt _)

/-- C6 counterexample: for the straight-down target (0, 0, -5) in degree mode
the elevation returned by `enu2aer_point` is exactly -90, refuting the claim
that the elevation is never -π/2 (i.e. never -90 in degree mode). -/
theorem enu2aer_elevation_open_cex :
    enu2aer_point 0 0 (-5 : ℝ) true = (0, -90, 5) := by
  have h0 : snap (0 : ℝ) = 0 := snap_eq_zero (by norm_num)
  have h5 : snap (-5 : ℝ) = -5 := snap_eq_self (by norm_num)
  have hr : hypot (0 : ℝ) 0 = 0 := hypot_eval le_rfl (by norm_num)
  have hs : hypot (0 : ℝ) (-5) = 5 := hypot_eval (by norm_num) (by norm_num)
  have haz : atan2 (0 : ℝ) 0 = 0 := atan2_zero_of_nonneg le_rfl
  have hel : atan2 (-5 : ℝ) 0 = -(Real.pi / 2) := atan2_of_neg_zero (by norm_num)
  simp only [enu2aer_point, h0, h5, hr, hs, haz, hel, pymod_zero, if_true,
    degrees_zero, degrees_neg_pi_div_two]

/-- C6 amended: the elevation returned by `enu2aer_point` lies in the CLOSED
interval [-π/2, π/2] radians ([-90, 90] degrees); the endpoint -π/2 is
attained (straight-down targets), so the interval cannot be half-open. -/
theorem enu2aer_elevation_bounds (e n u : ℝ) :
    (-(Real.pi / 2) ≤ (enu2aer_point e n u false).2.1 ∧
      (enu2aer_point e n u false).2.1 ≤ Real.pi / 2) ∧
    (-90 ≤ (enu2aer_point e n u true).2.1 ∧
      (enu2aer_point e n u true).2.1 ≤ 90) := by
  have h1 : (enu2aer_point e n u false).2.1 =
      atan2 (snap u) (hypot (snap e) (snap n)) := by
    simp [enu2aer_point]
  have h2 : (enu2aer_point e n u true).2.1 =
      degrees (atan2 (snap u) (hypot (snap e) (snap n))) := by
    simp [enu2aer_point]
  have hb := abs_le.mp (abs_atan2_le (y := snap u) (hypot_nonneg (snap e) (snap n)))
  refine ⟨⟨?_, ?_⟩, ⟨?_, ?_⟩⟩
  · rw [h1]; exact hb.1
  · rw [h1]; exact hb.2
  · rw [h2]
    have := degrees_le_degrees hb.1
    rwa [degrees_neg_pi_div_two] at this
  · rw [h2]
    have := degrees_le_degrees hb.2
    rwa [degrees_pi_div_two] at this

/-- C2: `aer2enu_point` returns the ValueError message and no result whenever
the slant range is negative, in either unit mode; the vectorized wrapper
`aer2enu_vec` fails the same way as soon as any element's slant range is
negative. -/
theorem aer2enu_negative_range_error :
    (∀ (az el s : ℝ) (deg : Bool), s < 0 →
      aer2enu_point az el s deg = Except.error "Slant range  [0, Infinity)") ∧
    (∀ (ts : List (ℝ × ℝ × ℝ)) (deg : Bool), (∃ t ∈ ts, t.2.2 < 0) →
      aer2enu_vec ts deg = Except.error "Slant range  [0, Infinity)") :=
  ⟨fun az el s deg h => aer2enu_point_neg az el s deg h,
   fun ts deg h => aer2enu_vec_error ts deg h⟩

/-- C2 witness: a concrete negative slant range makes both the scalar call
and a one-element vectorized call fail with the ValueError message. -/
theorem aer2enu_negative_range_error_witness :
    aer2enu_point 0 0 (-1 : ℝ) true = Except.error "Slant range  [0, Infinity)" ∧
    aer2enu_vec [((0 : ℝ), (0 : ℝ), (-1 : ℝ))] true =
      Except.error "Slant range  [0, Infinity)" :=
  ⟨aer2enu_negative_range_error.1 0 0 (-1) true (by norm_num),
   aer2enu_negative_range_error.2 [((0 : ℝ), (0 : ℝ), (-1 : ℝ))] true
     ⟨((0 : ℝ), (0 : ℝ), (-1 : ℝ)), by simp, by norm_num⟩⟩

/-- C7: `geodetic2enu` converts target and observer with the same
`geodetic2ecef` collaborator, the same ellipsoid and the same unit flag,
subtracts the two Cartesian triples, and hands the difference to the
rotation collaborator together with `lat0` and `lon0` only — `h0` is not
an argument of the rotation step. -/
theorem geodetic2enu_composition
    (g2e : ℝ → ℝ → ℝ → Option Ellipsoid → Bool → ℝ × ℝ × ℝ)
    (u2e : ℝ → ℝ → ℝ → ℝ → ℝ → Bool → ℝ × ℝ × ℝ)
    (lat lon h lat0 lon0 h0 : ℝ) (ell : Option Ellipsoid) (deg : Bool) :
    geodetic2enu g2e u2e lat lon h lat0 lon0 h0 ell deg =
      u2e ((g2e lat lon h ell deg).1 - (g2e lat0 lon0 h0 ell deg).1)
        ((g2e lat lon h ell deg).2.1 - (g2e lat0 lon0 h0 ell deg).2.1)
        ((g2e lat lon h ell deg).2.2 - (g2e lat0 lon0 h0 ell deg).2.2)
        lat0 lon0 deg := rfl

/-- C8: degree-mode calls agree with radian-mode calls after unit conversion,
in both directions: `enu2aer_point` with `deg = true` is the radian result
with both angles converted to degrees, and `aer2enu_point` with `deg = true`
is the radian call on the angles converted to radians. -/
theorem deg_radian_consistency :
    (∀ e n u : ℝ, enu2aer_point e n u true =
      (degrees (enu2aer_point e n u false).1,
       degrees (enu2aer_point e n u false).2.1,
       (enu2aer_point e n u false).2.2)) ∧
    (∀ az el s : ℝ, aer2enu_point az el s true =
      aer2enu_point (radians az) (radians el) s false) :=
  ⟨enu2aer_point_true_eq, aer2enu_point_true_eq⟩

/-- C10: for a nonnegative slant range, `aer2enu_point` succeeds and the
Euclidean norm of the returned ENU triple equals the slant range exactly,
for every azimuth and elevation and either unit mode. -/
theorem aer2enu_norm_preserving (az el s : ℝ) (deg : Bool) (h : 0 ≤ s) :
    ∃ e n u : ℝ, aer2enu_point az el s deg = Except.ok (e, n, u) ∧
      hypot (hypot e n) u = s := by
  refine ⟨_, _, _, aer2enu_point_nonneg_ok az el s deg (not_lt.mpr h), ?_⟩
  exact aer_norm _ _ _ h

/-- C10 witness: instantiation at azimuth 0, elevation 0, slant range 5 in
radian mode. -/
theorem aer2enu_norm_preserving_witness :
    ∃ e n u : ℝ, aer2enu_point 0 0 5 false = Except.ok (e, n, u) ∧
      hypot (hypot e n) u = 5 :=
  aer2enu_norm_preserving 0 0 5 false (by norm_num)

/-- C4 counterexample: the target (0, 0, 5e-4) lies strictly above the
observer with e = n = 0, yet `enu2aer_point` snaps u to 0 and returns
elevation 0, not ±90, refuting the general clause of the claim. -/
theorem enu2aer_zenith_policy_cex :
    enu2aer_point 0 0 (5e-4 : ℝ) true = (0, 0, 0) := by
  have h0 : snap (0 : ℝ) = 0 := snap_eq_zero (by norm_num)
  have hu : snap (5e-4 : ℝ) = 0 := snap_eq_zero (by rw [abs_of_pos] <;> norm_num)
  have hr : hypot (0 : ℝ) 0 = 0 := hypot_eval le_rfl (by norm_num)
  have haz : atan2 (0 : ℝ) 0 = 0 := atan2_zero_of_nonneg le_rfl
  simp only [enu2aer_point, h0, hu, hr, haz, pymod_zero, if_true, degrees_zero]

/-- C4 amended: `enu2aer_point 0 0 5` in degree mode returns exactly
(0, 90, 5); when e = n = 0 the azimuth is always 0, and the elevation is
+90 when u ≥ 1e-3 and -90 when u ≤ -1e-3 (for |u| below the 1e-3 snap
threshold the up component is snapped to 0 and the elevation is 0). -/
theorem enu2aer_zenith_policy :
    enu2aer_point 0 0 (5 : ℝ) true = (0, 90, 5) ∧
    (∀ (u : ℝ) (deg : Bool), (enu2aer_point 0 0 u deg).1 = 0) ∧
    (∀ u : ℝ, 1e-3 ≤ u → (enu2aer_point 0 0 u true).2.1 = 90) ∧
    (∀ u : ℝ, u ≤ -1e-3 → (enu2aer_point 0 0 u true).2.1 = -90) := by
  have h0 : snap (0 : ℝ) = 0 := snap_eq_zero (by norm_num)
  have hr : hypot (0 : ℝ) 0 = 0 := hypot_eval le_rfl (by norm_num)
  have haz : atan2 (0 : ℝ) 0 = 0 := atan2_zero_of_nonneg le_rfl
  refine ⟨?_, ?_, ?_, ?_⟩
  · have h5 : snap (5 : ℝ) = 5 := snap_eq_self (by norm_num)
    have hs : hypot (0 : ℝ) 5 = 5 := hypot_eval (by norm_num) (by norm_num)
    have hel : atan2 (5 : ℝ) 0 = Real.pi / 2 := atan2_of_pos_zero (by norm_num)
    simp only [enu2aer_point, h0, h5, hr, hs, haz, hel, pymod_zero, if_true,
      degrees_zero, degrees_pi_div_two]
  · intro u deg
    cases deg <;>
      simp [enu2aer_point, h0, haz, pymod_zero, degrees_zero]
  · intro u hu
    have hsu : snap u = u := snap_eq_self (by rw [abs_of_pos (by linarith)]; exact hu)
    have hel : atan2 u 0 = Real.pi / 2 := atan2_of_pos_zero (by linarith)
    simp only [enu2aer_point, h0, hsu, hr, hel, if_true, degrees_pi_div_two]
  · intro u hu
    have hsu : snap u = u := snap_eq_self (by rw [abs_of_neg (by linarith)]; linarith)
    have hel : atan2 u 0 = -(Real.pi / 2) := atan2_of_neg_zero (by linarith)
    simp only [enu2aer_point, h0, hsu, hr, hel, if_true, degrees_neg_pi_div_two]

/-- C4 witness: the two hypothetical clauses of the amended zenith policy,
instantiated at u = 5 and u = -5. -/
theorem enu2aer_zenith_policy_witness :
    (enu2aer_point 0 0 (5 : ℝ) true).2.1 = 90 ∧
    (enu2aer_point 0 0 (-5 : ℝ) true).2.1 = -90 :=
  ⟨enu2aer_zenith_policy.2.2.1 5 (by norm_num),
   enu2aer_zenith_policy.2.2.2 (-5) (by norm_num)⟩

/-- C1 counterexample: the input (5e-4, 10, 0) has positive slant range, yet
the east component is snapped to 0 by `enu2aer_point`, so the round trip
returns (0, 10, 0), off by 5e-4 — far outside any 1e-9 relative tolerance. -/
theorem roundtrip_claim_cex :
    aer2enu_point (enu2aer_point (5e-4 : ℝ) 10 0 false).1
        (enu2aer_point (5e-4 : ℝ) 10 0 false).2.1
        (enu2aer_point (5e-4 : ℝ) 10 0 false).2.2 false = Except.ok (0, 10, 0) ∧
    0 < hypot (hypot (5e-4 : ℝ) 10) 0 ∧
    ¬tripleApproxRel ((5e-4 : ℝ), 10, 0) (0, 10, 0) 1e-9 := by
  have he : snap (5e-4 : ℝ) = 0 := snap_eq_zero (by rw [abs_of_pos] <;> norm_num)
  have hn : snap (10 : ℝ) = 10 := snap_eq_self (by norm_num)
  have h0 : snap (0 : ℝ) = 0 := snap_eq_zero (by norm_num)
  have hr : hypot (0 : ℝ) 10 = 10 := hypot_eval (by norm_num) (by norm_num)
  have hs : hypot (10 : ℝ) 0 = 10 := hypot_eval (by norm_num) (by norm_num)
  have hel : atan2 (0 : ℝ) 10 = 0 := atan2_zero_of_nonneg (by norm_num)
  have hout : enu2aer_point (5e-4 : ℝ) 10 0 false = (0, 0, 10) := by
    simp only [enu2aer_point, he, hn, h0, hr, hs, hel, pymod_zero,
      Bool.false_eq_true, if_false]
  refine ⟨?_, ?_, ?_⟩
  · rw [hout]
    rw [aer2enu_point_nonneg_ok 0 0 10 false (by norm_num)]
    simp
  · unfold hypot
    exact Real.sqrt_pos.mpr (by positivity)
  · intro hA
    have h1 := hA.1
    simp only at h1
    rw [sub_zero, abs_of_pos (by norm_num : (0 : ℝ) < 5e-4),
      abs_of_pos (by norm_num : (0 : ℝ) < 10), abs_zero] at h1
    norm_num at h1

/-- C1 amended: for every triple whose components are unchanged by the
snap-to-zero step (each is 0 or at least 1e-3 in absolute value) and whose
slant range is positive, feeding the output of `enu2aer_point` into
`aer2enu_point` with the same unit flag recovers the triple exactly. -/
theorem aer2enu_enu2aer_roundtrip (e n u : ℝ) (deg : Bool)
    (he : snap e = e) (hn : snap n = n) (hu : snap u = u)
    (_hpos : 0 < hypot (hypot e n) u) :
    aer2enu_point (enu2aer_point e n u deg).1 (enu2aer_point e n u deg).2.1
      (enu2aer_point e n u deg).2.2 deg = Except.ok (e, n, u) := by
  have hfalse : enu2aer_point e n u false =
      (pymod (atan2 e n) tau, atan2 u (hypot e n), hypot (hypot e n) u) := by
    simp [enu2aer_point, he, hn, hu]
  cases deg
  · rw [hfalse]
    exact roundtrip_core e n u
  · rw [enu2aer_point_true_eq, hfalse]
    simp only
    rw [aer2enu_point_true_eq, radians_degrees, radians_degrees]
    exact roundtrip_core e n u

/-- C1 witness: the snap-invariant triple (3, 4, 12) with slant range 13
round-trips exactly through `enu2aer_point` and `aer2enu_point`. -/
theorem aer2enu_enu2aer_roundtrip_witness :
    aer2enu_point (enu2aer_point (3 : ℝ) 4 12 false).1
      (enu2aer_point (3 : ℝ) 4 12 false).2.1
      (enu2aer_point (3 : ℝ) 4 12 false).2.2 false = Except.ok (3, 4, 12) := by
  have h1 : hypot (3 : ℝ) 4 = 5 := hypot_eval (by norm_num) (by norm_num)
  have h2 : hypot (5 : ℝ) 12 = 13 := hypot_eval (by norm_num) (by norm_num)
  exact aer2enu_enu2aer_roundtrip 3 4 12 false (snap_eq_self (by norm_num))
    (snap_eq_self (by norm_num)) (snap_eq_self (by norm_num))
    (by rw [h1, h2]; norm_num)

end Pymap3d


